import Mathlib

/-!
Shallow embedding of the Game Boy CPU emulator core
(`src/main.rs`, `src/cpu.rs`, `src/instruction.rs`).

Machine integers (`u8`, `u16`) are modelled as `Nat` with explicit
`% 256` / `% 65536` where the Rust code wraps (`wrapping_add`,
`overflowing_add`).  Rust's checked `+` on `u16` (which panics on
overflow in a debug build, e.g. under `cargo test`) and the
out-of-bounds array index panic of `MemoryBus::read_byte` are modelled
by `Option`: `none` is a panic.
-/

namespace GB

/-- `FlagsRegister` from `src/main.rs`: the four condition codes. -/
structure FlagsRegister where
  zero : Bool
  subtract : Bool
  half_carry : Bool
  carry : Bool
deriving DecidableEq, Repr, Fintype

/-- `Registers` from `src/main.rs`: eight 8-bit fields plus flags.
Each `Nat` field models a `u8` (values `< 256` in any reachable state). -/
structure Registers where
  a : Nat
  b : Nat
  c : Nat
  d : Nat
  e : Nat
  f : FlagsRegister
  h : Nat
  l : Nat
deriving DecidableEq, Repr

/-- `Registers::get_bc` from `src/main.rs`:
`(self.b as u16) << 8 | self.c as u16`. -/
def Registers.get_bc (r : Registers) : Nat :=
  (r.b <<< 8) ||| r.c

/-- `Registers::set_bc` from `src/main.rs`:
`self.b = ((value & 0xFF00) >> 8) as u8; self.c = (value & 0xFF) as u8;`. -/
def Registers.set_bc (r : Registers) (value : Nat) : Registers :=
  { r with b := (value &&& 0xFF00) >>> 8, c := value &&& 0xFF }

/-- Modelled from the spec: `cpu.rs` uses `self.registers.get_hl()` from the
`registers` module, which is not among the sources.  The spec's pair-accessor
rule is `get_pair() == (high<<8)|low`; for the H/L pair the high byte is `h`
and the low byte is `l`. -/
def Registers.get_hl (r : Registers) : Nat :=
  (r.h <<< 8) ||| r.l

/-- `impl From<FlagsRegister> for u8` from `src/main.rs`: bit 7 = zero,
bit 6 = subtract, bit 5 = half_carry, bit 4 = carry. -/
def u8_from_flags (flag : FlagsRegister) : Nat :=
  ((if flag.zero then 1 else 0) <<< 7)
    ||| ((if flag.subtract then 1 else 0) <<< 6)
    ||| ((if flag.half_carry then 1 else 0) <<< 5)
    ||| ((if flag.carry then 1 else 0) <<< 4)

/-- `impl From<u8> for FlagsRegister` from `src/main.rs`: reads bits 7/6/5/4. -/
def flags_from_u8 (byte : Nat) : FlagsRegister :=
  { zero := ((byte >>> 7) &&& 0x01) != 0
    subtract := ((byte >>> 6) &&& 0x01) != 0
    half_carry := ((byte >>> 5) &&& 0x01) != 0
    carry := ((byte >>> 4) &&& 0x01) != 0 }

/-- `MemoryBus` from `src/main.rs`: backing store `memory: [u8; 0xFFFF]`,
a 65535-byte array indexed by addresses `0x0000 ..= 0xFFFE`.  The function
gives the byte at each in-range address. -/
structure MemoryBus where
  memory : Nat → Nat

/-- `MemoryBus::read_byte` from `src/main.rs`:
`self.memory[address as usize]`.  The array has `0xFFFF` elements, so an
index of `0xFFFF` (or beyond) is an out-of-bounds panic, modelled as `none`. -/
def MemoryBus.read_byte (bus : MemoryBus) (address : Nat) : Option Nat :=
  if address < 0xFFFF then some (bus.memory address) else none

/-- Modelled from the spec: `cpu.rs` calls `self.bus.write_byte(...)` from the
`memory` module, which is not among the sources.  The spec says `write_byte`
"stores `value` at `address`, unconditionally", mutating only that byte; the
backing store is the fixed 65535-byte array, so an address it cannot
represent has no defined write (modelled as a panic, `none`), symmetric with
`read_byte`. -/
def MemoryBus.write_byte (bus : MemoryBus) (address value : Nat) :
    Option MemoryBus :=
  if address < 0xFFFF then
    some ⟨fun a => if a = address then value else bus.memory a⟩
  else none

/-- `ArithmeticTarget` from `src/instruction.rs`. -/
inductive ArithmeticTarget where
  | A | B | C | D | E | H | L
deriving DecidableEq, Repr

/-- `JumpTest` from `src/instruction.rs`. -/
inductive JumpTest where
  | NotZero | Zero | NotCarry | Carry | Always
deriving DecidableEq, Repr

/-- `LoadByteTarget` from `src/instruction.rs`. -/
inductive LoadByteTarget where
  | A | B | C | D | E | H | L | HLI
deriving DecidableEq, Repr

/-- `LoadByteSource` from `src/instruction.rs`. -/
inductive LoadByteSource where
  | A | B | C | D | E | H | L | D8 | HLI
deriving DecidableEq, Repr

/-- `LoadType` from `src/instruction.rs`. -/
inductive LoadType where
  | Byte (target : LoadByteTarget) (source : LoadByteSource)
deriving DecidableEq, Repr

/-- `Instruction` from `src/instruction.rs` (the closed variant). -/
inductive Instruction where
  | ADD (target : ArithmeticTarget)
  | JP (test : JumpTest)
  | LD (load_type : LoadType)
deriving DecidableEq, Repr

/-- `Instruction::from_byte_prefixed` from `src/instruction.rs`:
`match byte { _ => None }`. -/
def Instruction.from_byte_prefixed (byte : Nat) : Option Instruction :=
  match byte with
  | _ => none

/-- `Instruction::from_byte_not_prefixed` from `src/instruction.rs`:
`match byte { _ => None }`. -/
def Instruction.from_byte_not_prefixed (byte : Nat) : Option Instruction :=
  match byte with
  | _ => none

/-- `Instruction::from_byte` from `src/instruction.rs`. -/
def Instruction.from_byte (byte : Nat) (prefixed : Bool) : Option Instruction :=
  if prefixed then
    Instruction.from_byte_prefixed byte
  else
    Instruction.from_byte_not_prefixed byte

/-- `CPU` from `src/cpu.rs`: register file, program counter, memory bus.
`pc` models a `u16` (`< 65536` in any reachable state). -/
structure CPU where
  registers : Registers
  pc : Nat
  bus : MemoryBus

/-- Rust `u8::overflowing_add`: the wrapped sum and whether the mathematical
sum exceeds the `u8` range (for operands `< 256`). -/
def u8_overflowing_add (x y : Nat) : Nat × Bool :=
  ((x + y) % 256, decide (255 < x + y))

/-- Rust `u16::wrapping_add` on the program counter. -/
def u16_wrapping_add (x y : Nat) : Nat :=
  (x + y) % 65536

/-- Rust checked `+` on `u16` (debug-build semantics: panics on overflow,
modelled as `none`). -/
def u16_checked_add (x y : Nat) : Option Nat :=
  if x + y ≤ 0xFFFF then some (x + y) else none

/-- `CPU::add` from `src/cpu.rs`: wrapped sum into the returned value, the
four flags set from the pre-addition `a` and the operand.  Returns the
mutated CPU and `new_value` (the caller stores it into `a`). -/
def CPU.add (cpu : CPU) (value : Nat) : CPU × Nat :=
  let p := u8_overflowing_add cpu.registers.a value
  let new_value := p.1
  let did_overflow := p.2
  let f : FlagsRegister :=
    { zero := decide (new_value = 0)
      subtract := false
      carry := did_overflow
      half_carry := decide (0xF < (cpu.registers.a &&& 0xF) + (value &&& 0xF)) }
  ({ cpu with registers := { cpu.registers with f := f } }, new_value)

/-- `CPU::read_next_byte` from `src/cpu.rs`: reads the byte at the CURRENT
`pc` (`self.bus.read_byte(self.pc)`), then advances `pc` by one
(`wrapping_add`).  Returns the mutated CPU and the byte. -/
def CPU.read_next_byte (cpu : CPU) : Option (CPU × Nat) := do
  let byte ← cpu.bus.read_byte cpu.pc
  some ({ cpu with pc := u16_wrapping_add cpu.pc 1 }, byte)

/-- The `jump_condition` computation inside `CPU::execute` for `JP` in
`src/cpu.rs`: evaluates a `JumpTest` against the flags. -/
def jumpCondition (f : FlagsRegister) : JumpTest → Bool
  | .NotZero => !f.zero
  | .Zero => f.zero
  | .NotCarry => !f.carry
  | .Carry => f.carry
  | .Always => true

/-- `CPU::jump` from `src/cpu.rs`: if taken, read the low byte at `pc + 1`
and the high byte at `pc + 2` (checked `+`, then array-indexed read) and
combine `(high << 8) | low`; if not taken, `pc.wrapping_add(3)`. -/
def CPU.jump (cpu : CPU) (should_jump : Bool) : Option Nat :=
  if should_jump then do
    let a1 ← u16_checked_add cpu.pc 1
    let least_significant_byte ← cpu.bus.read_byte a1
    let a2 ← u16_checked_add cpu.pc 2
    let most_significant_byte ← cpu.bus.read_byte a2
    some ((most_significant_byte <<< 8) ||| least_significant_byte)
  else
    some (u16_wrapping_add cpu.pc 3)

/-- `CPU::execute` from `src/cpu.rs`: runs one decoded instruction, returning
the mutated CPU and the next program counter, or `none` on a panic. -/
def CPU.execute (cpu : CPU) (instruction : Instruction) :
    Option (CPU × Nat) :=
  match instruction with
  | .JP test =>
      let jump_condition := jumpCondition cpu.registers.f test
      (cpu.jump jump_condition).map (fun next => (cpu, next))
  | .ADD target =>
      match target with
      | .A => some (cpu, cpu.pc)
      | .B => some (cpu, cpu.pc)
      | .C =>
          let value := cpu.registers.c
          let r := cpu.add value
          let cpu1 := r.1
          let new_value := r.2
          some ({ cpu1 with registers := { cpu1.registers with a := new_value } },
            u16_wrapping_add cpu.pc 1)
      | .D => some (cpu, cpu.pc)
      | .E => some (cpu, cpu.pc)
      | .H => some (cpu, cpu.pc)
      | .L => some (cpu, cpu.pc)
  | .LD load_type =>
      match load_type with
      | .Byte target source => do
          let sv ← match source with
            | .A => some (cpu, cpu.registers.a)
            | .B => some (cpu, cpu.registers.b)
            | .C => some (cpu, cpu.registers.c)
            | .D => some (cpu, cpu.registers.d)
            | .E => some (cpu, cpu.registers.e)
            | .H => some (cpu, cpu.registers.h)
            | .L => some (cpu, cpu.registers.l)
            | .D8 => cpu.read_next_byte
            | .HLI =>
                (cpu.bus.read_byte cpu.registers.get_hl).map (fun b => (cpu, b))
          let cpu1 := sv.1
          let source_value := sv.2
          let cpu2 ← match target with
            | .A => some { cpu1 with registers := { cpu1.registers with a := source_value } }
            | .B => some { cpu1 with registers := { cpu1.registers with b := source_value } }
            | .C => some { cpu1 with registers := { cpu1.registers with c := source_value } }
            | .D => some { cpu1 with registers := { cpu1.registers with d := source_value } }
            | .E => some { cpu1 with registers := { cpu1.registers with e := source_value } }
            | .H => some { cpu1 with registers := { cpu1.registers with h := source_value } }
            | .L => some { cpu1 with registers := { cpu1.registers with l := source_value } }
            | .HLI =>
                (cpu1.bus.write_byte cpu1.registers.get_hl source_value).map
                  (fun b => { cpu1 with bus := b })
          match source with
          | .D8 => some (cpu2, u16_wrapping_add cpu2.pc 2)
          | _ => some (cpu2, u16_wrapping_add cpu2.pc 1)

/-- One digit of Rust's `{:X}` (upper-case hexadecimal) formatting. -/
def hexDigitChar (n : Nat) : Char :=
  if n < 10 then Char.ofNat (48 + n) else Char.ofNat (55 + n)

/-- Rust's `{:02X}` formatting of a byte: two upper-case hex digits. -/
def toHex2 (b : Nat) : String :=
  String.mk [hexDigitChar (b / 16), hexDigitChar (b % 16)]

/-- Result of one `CPU::step` from `src/cpu.rs`: either the mutated CPU with
the committed next `pc`, or the `panic!("Unkown instruction found for: …")`
carrying the formatted `description` string and the (unmutated) CPU state at
the point of the panic, or any other panic (out-of-bounds read, checked-add
overflow). -/
inductive StepResult where
  | ok (cpu : CPU)
  | unknown (description : String) (state : CPU)
  | fault

/-- `CPU::step` from `src/cpu.rs`: fetch the opcode byte at `pc`; on the
`0xCB` marker fetch the real opcode at `pc + 1` (checked `+`); decode;
execute and commit the returned `pc`, or panic with
`format!("0x{}{:02X}", if prefixed { "CB" } else { "" }, instruction_byte)`.
Before that panic nothing has been mutated (`read_byte` borrows `&self`),
so the carried state is the input CPU. -/
def CPU.step (cpu : CPU) : StepResult :=
  match cpu.bus.read_byte cpu.pc with
  | none => .fault
  | some byte0 =>
    let prefixed : Bool := byte0 == 0xCB
    let fetched : Option Nat :=
      if prefixed then
        match u16_checked_add cpu.pc 1 with
        | none => none
        | some a => cpu.bus.read_byte a
      else some byte0
    match fetched with
    | none => .fault
    | some instruction_byte =>
      match Instruction.from_byte instruction_byte prefixed with
      | some instruction =>
        match cpu.execute instruction with
        | none => .fault
        | some (cpu1, next_pc) => .ok { cpu1 with pc := next_pc }
      | none =>
        .unknown
          ("0x" ++ (if prefixed then "CB" else "") ++ toHex2 instruction_byte)
          cpu

/-- A zeroed register file (`Registers::default()`). -/
def regs0 : Registers :=
  { a := 0, b := 0, c := 0, d := 0, e := 0
    f := { zero := false, subtract := false, half_carry := false, carry := false }
    h := 0, l := 0 }

/-- A freshly constructed CPU (`CPU::default()`): zeroed registers, `pc = 0`,
zero-filled memory. -/
def cpu0 : CPU :=
  { registers := regs0, pc := 0, bus := ⟨fun _ => 0⟩ }

/- ### Helper lemmas -/

lemma from_byte_eq_none (byte : Nat) (p : Bool) :
    Instruction.from_byte byte p = none := by
  cases p <;> rfl

lemma nat_and_ff (v : Nat) : v &&& 0xFF = v % 256 := by
  have h := Nat.and_pow_two_sub_one_eq_mod v 8
  norm_num at h
  exact h

lemma and_ff00_shiftRight (v : Nat) : (v &&& 0xFF00) >>> 8 = (v / 256) % 256 := by
  apply Nat.eq_of_testBit_eq
  intro i
  rw [Nat.testBit_shiftRight, Nat.testBit_and,
    show (0xFF00 : Nat) = (2 ^ 8 - 1) <<< 8 by norm_num [Nat.shiftLeft_eq],
    Nat.testBit_shiftLeft, Nat.testBit_two_pow_sub_one,
    show (256 : Nat) = 2 ^ 8 by norm_num, Nat.testBit_mod_two_pow,
    show v / 2 ^ 8 = v >>> 8 by rw [Nat.shiftRight_eq_div_pow],
    Nat.testBit_shiftRight]
  simp [Nat.add_sub_cancel_left, Bool.and_comm]

lemma set_bc_roundtrip (v : Nat) (hv : v < 65536) :
    ((((v &&& 0xFF00) >>> 8) <<< 8) ||| (v &&& 0xFF)) = v := by
  rw [and_ff00_shiftRight, nat_and_ff, Nat.shiftLeft_eq]
  have h1 : v % 256 < 2 ^ 8 := by omega
  have h2 := Nat.mul_add_lt_is_or h1 (v / 256 % 256)
  rw [mul_comm]
  rw [← h2]
  omega

lemma set_bc_b_eq (v : Nat) (hv : v < 65536) :
    (v &&& 0xFF00) >>> 8 = v >>> 8 := by
  rw [and_ff00_shiftRight, Nat.shiftRight_eq_div_pow]
  norm_num
  omega

/- ### Claim theorems -/

/-- C1: for every CPU state, executing `ADD` with target `C` sets register
`A` to `(A + C) mod 256`, sets the zero flag iff that wrapped result is 0,
clears subtract, sets carry iff the mathematical sum exceeds 255, sets
half-carry iff `(A & 0xF) + (C & 0xF) > 0xF` computed from the pre-addition
`A`, and returns next PC `= PC + 1 mod 2^16`. -/
theorem execute_ADD_C_spec (s : CPU) :
    ∃ s' next, s.execute (.ADD .C) = some (s', next) ∧
      s'.registers.a = (s.registers.a + s.registers.c) % 256 ∧
      (s'.registers.f.zero = true ↔ (s.registers.a + s.registers.c) % 256 = 0) ∧
      s'.registers.f.subtract = false ∧
      (s'.registers.f.carry = true ↔ 255 < s.registers.a + s.registers.c) ∧
      (s'.registers.f.half_carry = true ↔
        0xF < (s.registers.a &&& 0xF) + (s.registers.c &&& 0xF)) ∧
      next = (s.pc + 1) % 65536 := by
  refine ⟨_, _, rfl, ?_, ?_, ?_, ?_, ?_, ?_⟩ <;>
    simp [CPU.execute, CPU.add, u8_overflowing_add, u16_wrapping_add]

/-- C10: executing `ADD` with any target other than `C` returns the current
PC and mutates nothing: the CPU state is returned exactly as it was. -/
theorem execute_ADD_non_C_noop (s : CPU) (t : ArithmeticTarget) (h : t ≠ .C) :
    s.execute (.ADD t) = some (s, s.pc) := by
  cases t <;> first | rfl | exact absurd rfl h

/-- Witness for C10 at a concrete state and target. -/
theorem execute_ADD_non_C_noop_witness :
    CPU.execute cpu0 (.ADD .A) = some (cpu0, cpu0.pc) :=
  execute_ADD_non_C_noop cpu0 .A (by decide)

set_option maxRecDepth 4096 in
/-- C6: the flags byte conversions are mutual inverses on the defined bits:
`from(u8::from(f)) = f` for all sixteen flag values, and
`u8::from(from(b)) = b & 0xF0` for every byte; bits 7, 6, 5, 4 encode
zero, subtract, half-carry, carry respectively. -/
theorem flags_byte_roundtrip :
    (∀ f : FlagsRegister, flags_from_u8 (u8_from_flags f) = f) ∧
    (∀ b, b < 256 → u8_from_flags (flags_from_u8 b) = b &&& 0xF0) ∧
    (∀ f : FlagsRegister,
      (u8_from_flags f).testBit 7 = f.zero ∧
      (u8_from_flags f).testBit 6 = f.subtract ∧
      (u8_from_flags f).testBit 5 = f.half_carry ∧
      (u8_from_flags f).testBit 4 = f.carry) :=
  ⟨by decide, by decide, by decide⟩

/-- Witness for C6 at concrete values. -/
theorem flags_byte_roundtrip_witness :
    flags_from_u8 (u8_from_flags ⟨true, false, true, false⟩) =
      ⟨true, false, true, false⟩ ∧
    u8_from_flags (flags_from_u8 0xAB) = 0xAB &&& 0xF0 :=
  ⟨flags_byte_roundtrip.1 ⟨true, false, true, false⟩,
   flags_byte_roundtrip.2.1 0xAB (by decide)⟩

/-- C8: `set_bc v` followed by `get_bc` returns `v` for every 16-bit `v`;
`set_bc` writes `b = v >> 8` and `c = v & 0xFF` and mutates no other field;
and `get_bc` always equals `(b << 8) | c`. -/
theorem bc_pair_accessor_spec :
    (∀ (r : Registers) (v : Nat), v < 65536 →
      (r.set_bc v).get_bc = v ∧
      (r.set_bc v).b = v >>> 8 ∧
      (r.set_bc v).c = v &&& 0xFF ∧
      (r.set_bc v).a = r.a ∧ (r.set_bc v).d = r.d ∧ (r.set_bc v).e = r.e ∧
      (r.set_bc v).f = r.f ∧ (r.set_bc v).h = r.h ∧ (r.set_bc v).l = r.l) ∧
    (∀ r : Registers, r.get_bc = (r.b <<< 8) ||| r.c) := by
  refine ⟨fun r v hv => ?_, fun r => rfl⟩
  refine ⟨?_, set_bc_b_eq v hv, rfl, rfl, rfl, rfl, rfl, rfl, rfl⟩
  show ((((v &&& 0xFF00) >>> 8) <<< 8) ||| (v &&& 0xFF)) = v
  exact set_bc_roundtrip v hv

/-- Witness for C8 at a concrete register file and value. -/
theorem bc_pair_accessor_spec_witness :
    (regs0.set_bc 0x1A3C).get_bc = 0x1A3C ∧ (regs0.set_bc 0x1A3C).b = 0x1A :=
  ⟨(bc_pair_accessor_spec.1 regs0 0x1A3C (by decide)).1,
   (bc_pair_accessor_spec.1 regs0 0x1A3C (by decide)).2.1⟩

/-- C4 (amended with the program-counter bound the backing store forces):
when the jump condition of a `JP` holds and `pc + 2` is an in-range address,
the next PC is `(mem[pc+2] << 8) | mem[pc+1]` — the two operand bytes in
little-endian order — and the registers and memory are untouched. -/
theorem jp_taken_little_endian (s : CPU) (t : JumpTest)
    (hc : jumpCondition s.registers.f t = true)
    (hpc : s.pc + 2 < 0xFFFF) :
    s.execute (.JP t) =
      some (s, (s.bus.memory (s.pc + 2) <<< 8) ||| s.bus.memory (s.pc + 1)) := by
  have h1 : s.pc + 1 ≤ 0xFFFF := by omega
  have h1' : s.pc + 1 < 0xFFFF := by omega
  have h2 : s.pc + 2 ≤ 0xFFFF := by omega
  simp [CPU.execute, hc, CPU.jump, u16_checked_add, MemoryBus.read_byte,
    h1, h1', h2, hpc]

/-- The memory image of the taken-jump test: `0x34` at `0x0101`, `0x12` at
`0x0102`. -/
def memJP : MemoryBus :=
  ⟨fun a => if a = 0x0101 then 0x34 else if a = 0x0102 then 0x12 else 0⟩

/-- CPU at `pc = 0x0100` with the jump operand bytes in memory. -/
def cpuJP : CPU := { registers := regs0, pc := 0x0100, bus := memJP }

/-- Witness for C4: taken `JP NotZero` at `0x0100` jumps to `0x1234`. -/
theorem jp_taken_little_endian_witness :
    CPU.execute cpuJP (.JP .NotZero) = some (cpuJP, 0x1234) := by
  have h := jp_taken_little_endian cpuJP .NotZero (by decide) (by decide)
  simpa [cpuJP, memJP] using h

/-- CPU at `pc = 0xFFFE` (registers zeroed, memory zero-filled). -/
def cpuFFFE : CPU := { registers := regs0, pc := 0xFFFE, bus := ⟨fun _ => 0⟩ }

/-- C4 counterexample: at `pc = 0xFFFE` the jump condition of `JP Always`
holds, yet `execute` produces no next PC — the operand read at address
`0xFFFF` indexes past the 65535-byte memory array and panics — so the
claim's unrestricted quantification over all CPU states fails. -/
theorem jp_taken_high_pc_panics :
    jumpCondition cpuFFFE.registers.f .Always = true ∧
    CPU.execute cpuFFFE (.JP .Always) = none :=
  ⟨rfl, rfl⟩

/-- C5: when the jump condition of a `JP` does not hold, the next PC is
`pc + 3 mod 2^16`, the state is untouched, and the result is independent of
the memory contents (the operand bytes are never read). -/
theorem jp_not_taken_spec :
    (∀ (s : CPU) (t : JumpTest), jumpCondition s.registers.f t = false →
      s.execute (.JP t) = some (s, (s.pc + 3) % 65536)) ∧
    (∀ (s₁ s₂ : CPU) (t : JumpTest),
      s₁.registers = s₂.registers → s₁.pc = s₂.pc →
      jumpCondition s₁.registers.f t = false →
      (s₁.execute (.JP t)).map Prod.snd = (s₂.execute (.JP t)).map Prod.snd) := by
  have base : ∀ (s : CPU) (t : JumpTest), jumpCondition s.registers.f t = false →
      s.execute (.JP t) = some (s, (s.pc + 3) % 65536) := by
    intro s t h
    simp [CPU.execute, h, CPU.jump, u16_wrapping_add]
  refine ⟨base, fun s₁ s₂ t hr hp h => ?_⟩
  rw [base s₁ t h, base s₂ t (by rw [← hr]; exact h), hp]
  simp

/-- Registers with only the zero flag set. -/
def regsZ : Registers :=
  { regs0 with
    f := { zero := true, subtract := false, half_carry := false, carry := false } }

/-- CPU at `pc = 0x0100`, zero flag set, jump operand bytes in memory. -/
def cpuNT : CPU := { registers := regsZ, pc := 0x0100, bus := memJP }

/-- Same registers and PC as `cpuNT` but entirely different memory. -/
def cpuNT2 : CPU := { registers := regsZ, pc := 0x0100, bus := ⟨fun _ => 0xEE⟩ }

/-- Witness for C5: untaken `JP NotZero` yields `0x0103`, and the result is
the same under completely different memory contents. -/
theorem jp_not_taken_spec_witness :
    CPU.execute cpuNT (.JP .NotZero) = some (cpuNT, 0x0103) ∧
    (CPU.execute cpuNT (.JP .NotZero)).map Prod.snd =
      (CPU.execute cpuNT2 (.JP .NotZero)).map Prod.snd := by
  constructor
  · have h := jp_not_taken_spec.1 cpuNT .NotZero (by decide)
    simpa using h
  · exact jp_not_taken_spec.2 cpuNT cpuNT2 .NotZero rfl rfl (by decide)

/-- C3 (amended with the bounds the backing store forces): for every CPU
state whose PC is at most `0xFFFC` and whose H/L pair addresses the modeled
memory range, `execute` succeeds on every instruction of the closed variant.
The PC advances computed with `wrapping_add` (`pc+1`, `pc+2`, untaken
`pc+3`) wrap modulo 65536 for every PC; the bound is forced by the taken
jump's checked operand addressing and the 65535-byte memory array. -/
theorem execute_total_in_range (s : CPU) (inst : Instruction)
    (hpc : s.pc ≤ 0xFFFC) (hhl : s.registers.get_hl < 0xFFFF) :
    (s.execute inst).isSome = true := by
  have hp1 : s.pc < 0xFFFF := by omega
  cases inst with
  | ADD t => cases t <;> simp [CPU.execute, CPU.add]
  | JP t =>
      have h1 : s.pc + 1 ≤ 0xFFFF := by omega
      have h1' : s.pc + 1 < 0xFFFF := by omega
      have h2 : s.pc + 2 ≤ 0xFFFF := by omega
      have h2' : s.pc + 2 < 0xFFFF := by omega
      cases hc : jumpCondition s.registers.f t <;>
        simp [CPU.execute, hc, CPU.jump, u16_checked_add, MemoryBus.read_byte,
          h1, h1', h2, h2']
  | LD lt =>
      obtain ⟨target, source⟩ := lt
      cases source <;> cases target <;>
        simp [CPU.execute, CPU.read_next_byte, MemoryBus.read_byte,
          MemoryBus.write_byte, hhl, hp1]

/-- CPU at `pc = 0xFFFF` (registers zeroed, memory zero-filled). -/
def cpuTop : CPU := { registers := regs0, pc := 0xFFFF, bus := ⟨fun _ => 0⟩ }

/-- C3 counterexample: with `pc = 0xFFFF` — a value the claim explicitly
includes — executing `JP Always` fails: `self.pc + 1` overflows the checked
`u16` addition (and the operand addresses lie past the 65535-byte array), so
`execute` panics instead of returning a next PC. -/
theorem execute_panics_at_pc_top :
    CPU.execute cpuTop (.JP .Always) = none := rfl

/-- Witness for C3 at a concrete in-range state and instruction. -/
theorem execute_total_in_range_witness :
    (CPU.execute cpu0 (.LD (.Byte .A .D8))).isSome = true :=
  execute_total_in_range cpu0 (.LD (.Byte .A .D8)) (by decide) (by decide)

/-- CPU at `pc = 0x0200` with `0xAB` at `0x0200` (the opcode position) and
`0xCD` at `0x0201` (where the immediate operand should be). -/
def cpuD8 : CPU :=
  { registers := regs0, pc := 0x0200,
    bus := ⟨fun a => if a = 0x0200 then 0xAB else if a = 0x0201 then 0xCD else 0⟩ }

/-- C2: evaluation of the code at the failing input.  `LD C, D8` loads the
byte at the CURRENT `pc` (`0xAB`, the opcode position) — not the byte at
`pc + 1` (`0xCD`) — and returns next PC `0x0203` (`pc + 3`), not `0x0202`
(`pc + 2`): `read_next_byte` reads `self.bus.read_byte(self.pc)` before
advancing, and the already-advanced `pc` then gets `wrapping_add(2)`. -/
theorem ld_d8_loads_opcode_byte_and_advances_three :
    CPU.execute cpuD8 (.LD (.Byte .C .D8)) =
      some ({ registers := { regs0 with c := 0xAB }, pc := 0x0201,
              bus := cpuD8.bus }, 0x0203) ∧
    cpuD8.bus.memory (cpuD8.pc + 1) = 0xCD ∧
    (0x0203 : Nat) ≠ 0x0202 :=
  ⟨rfl, rfl, by decide⟩

lemma string_0x_append_empty : ("0x" ++ "" : String) = "0x" := rfl

lemma string_0x_append_cb : ("0x" ++ "CB" : String) = "0xCB" := rfl

lemma step_unknown_of_not_cb (cpu : CPU) (hpc : cpu.pc < 0xFFFF)
    (hcb : cpu.bus.memory cpu.pc ≠ 0xCB) :
    cpu.step = .unknown ("0x" ++ toHex2 (cpu.bus.memory cpu.pc)) cpu := by
  have h0 : cpu.bus.read_byte cpu.pc = some (cpu.bus.memory cpu.pc) := by
    simp [MemoryBus.read_byte, hpc]
  have hbeq : (cpu.bus.memory cpu.pc == 0xCB) = false := by
    simp [hcb]
  simp [CPU.step, h0, hbeq, from_byte_eq_none, string_0x_append_empty]

lemma step_unknown_of_cb (cpu : CPU) (hpc : cpu.pc + 1 < 0xFFFF)
    (hcb : cpu.bus.memory cpu.pc = 0xCB) :
    cpu.step = .unknown ("0xCB" ++ toHex2 (cpu.bus.memory (cpu.pc + 1))) cpu := by
  have h0 : cpu.bus.read_byte cpu.pc = some 0xCB := by
    simp [MemoryBus.read_byte, hcb]
    omega
  have h1 : cpu.pc + 1 ≤ 0xFFFF := by omega
  have h2 : cpu.bus.read_byte (cpu.pc + 1) = some (cpu.bus.memory (cpu.pc + 1)) := by
    simp [MemoryBus.read_byte, hpc]
  simp [CPU.step, h0, h2, u16_checked_add, h1, from_byte_eq_none,
    string_0x_append_cb]

set_option maxRecDepth 4096 in
/-- C7: whenever the fetched opcode byte fails to decode (which, with the
current empty tables, is always), `step` terminates fatally with a
diagnostic rendering the offending byte as two upper-case hexadecimal
digits prefixed with `0xCB` when it followed a `0xCB` prefix byte and `0x`
otherwise, and the CPU state carried at the point of the panic — PC,
registers, flags, memory — is exactly the input state: no PC change is
committed. -/
theorem step_decode_failure_diagnostic (cpu : CPU) :
    (cpu.pc < 0xFFFF → cpu.bus.memory cpu.pc ≠ 0xCB →
      cpu.step = .unknown ("0x" ++ toHex2 (cpu.bus.memory cpu.pc)) cpu) ∧
    (cpu.pc + 1 < 0xFFFF → cpu.bus.memory cpu.pc = 0xCB →
      cpu.step = .unknown ("0xCB" ++ toHex2 (cpu.bus.memory (cpu.pc + 1))) cpu) ∧
    (∀ b, b < 256 → (toHex2 b).length = 2 ∧
      ∀ c ∈ (toHex2 b).toList, c ∈ "0123456789ABCDEF".toList) :=
  ⟨step_unknown_of_not_cb cpu, step_unknown_of_cb cpu, by decide⟩

/-- Witness for C7: on a fresh CPU (byte `0x00` at `pc = 0`) the step panics
with diagnostic `0x00` and the carried state is the input state. -/
theorem step_decode_failure_diagnostic_witness :
    CPU.step cpu0 = .unknown ("0x" ++ toHex2 (cpu0.bus.memory cpu0.pc)) cpu0 ∧
    ("0x" ++ toHex2 (cpu0.bus.memory cpu0.pc) : String) = "0x00" :=
  ⟨(step_decode_failure_diagnostic cpu0).1 (by decide) (by decide), by decide⟩

/-- C9: `Instruction::from_byte` returns `None` for every byte in both the
unprefixed and the prefixed table, so on every memory image the first step
takes the decode-failure (fatal) path. -/
theorem from_byte_always_none_and_first_step_fatal :
    (∀ (byte : Nat) (p : Bool), Instruction.from_byte byte p = none) ∧
    (∀ cpu : CPU, cpu.pc = 0 → ∃ d, cpu.step = .unknown d cpu) := by
  refine ⟨from_byte_eq_none, fun cpu h => ?_⟩
  by_cases hcb : cpu.bus.memory cpu.pc = 0xCB
  · exact ⟨_, step_unknown_of_cb cpu (by omega) hcb⟩
  · exact ⟨_, step_unknown_of_not_cb cpu (by omega) hcb⟩

/-- Witness for C9 at a concrete byte and a concrete fresh CPU. -/
theorem from_byte_always_none_witness :
    Instruction.from_byte 0x00 false = none ∧
    ∃ d, CPU.step cpu0 = .unknown d cpu0 :=
  ⟨from_byte_always_none_and_first_step_fatal.1 0x00 false,
   from_byte_always_none_and_first_step_fatal.2 cpu0 rfl⟩

end GB
